import Mathlib

/-!
Verification of the Osmose harmonic-oscillator core (src/osmose.cpp, src/dac.cpp).

The embedding models the C++ floats by exact rationals.  The two library
transcendentals the generator calls, sin and pow, are abstracted as the
fields of an `Env` record (`sinFn x` stands for `sin (2*pi*x)`, `pow2 x`
for `2^x`); every theorem below holds for an arbitrary `Env`, and witnesses
instantiate it with concrete computable stand-ins.  All other arithmetic is
translated literally from the source.
-/

namespace Osmose

/-- Number of samples in one fixed waveform period (`numSamples` in the source). -/
def numSamples : ℕ := 256

/-- The configured sample rate (`sampleRate` in the source). -/
def sampleRate : ℚ := 1000

/-- CV channel assignment modes (`enum CVMode` in the source). -/
inductive CVMode
  | NONE
  | LIN_FM
  | EXP_FM
  | AMPLITUDE
  | PITCH_1V_OCT
deriving DecidableEq

/-- Waveform kinds (`enum WaveformType` in the source). -/
inductive WaveformType
  | SINE
  | SAW
  | TRIANGLE
  | PULSE
deriving DecidableEq

/-- Abstracted transcendental library functions used by `onTimer`:
`sinFn x` models `sin(2*PI*x)` and `pow2 x` models `pow(2, x)`. -/
structure Env where
  sinFn : ℚ → ℚ
  pow2 : ℚ → ℚ

/-- The Parameter Store: the global mutable state of osmose.cpp that the
generator reads (and, for amplitudes and the sample index, writes). -/
@[ext]
structure Store where
  harmonicAmplitudes : Fin 7 → ℚ
  harmonicPanning : Fin 7 → ℚ
  baseFrequency : ℚ
  modulationMatrix : Fin 7 → Fin 7 → ℚ
  cvAssignments : Fin 4 → CVMode
  currentWaveform : WaveformType
  sampleIndex : ℕ

/-- One tick's output: leftSample, rightSample, stereoSample (the mono sum)
and the seven per-harmonic waveSamples of `onTimer`. -/
@[ext]
structure SampleFrame where
  left : ℚ
  right : ℚ
  stereo : ℚ
  perHarmonic : Fin 7 → ℚ

/-- The loop-carried state of `onTimer`'s per-harmonic loop: the live
amplitude array plus the four accumulators. -/
@[ext]
structure TickAcc where
  amps : Fin 7 → ℚ
  left : ℚ
  right : ℚ
  stereo : ℚ
  wave : Fin 7 → ℚ

/-- Arduino `constrain(x, lo, hi)`: `x < lo ? lo : (x > hi ? hi : x)`. -/
def constrain (x lo hi : ℚ) : ℚ :=
  if x < lo then lo else if hi < x then hi else x

/-- One arm of the CV switch in `onTimer`, acting on the pair
(modulatedFrequency, harmonicAmplitudes[i]).  Translated case-for-case from
the `switch (cvAssignments[cvIndex])` statement. -/
def cvApply (env : Env) (base : ℚ) (m : CVMode) (v : ℚ) (fa : ℚ × ℚ) : ℚ × ℚ :=
  match m with
  | CVMode.LIN_FM => (fa.1 + v * base, fa.2)
  | CVMode.EXP_FM => (fa.1 * env.pow2 v, fa.2)
  | CVMode.AMPLITUDE => (fa.1, fa.2 * v)
  | CVMode.PITCH_1V_OCT => (fa.1 * env.pow2 (v - 1), fa.2)
  | CVMode.NONE => fa

/-- The CV loop of `onTimer` (`for cvIndex = 0..3`), folded over the four
channels in order. -/
def applyCV (env : Env) (assign : Fin 4 → CVMode) (base : ℚ) (cv : Fin 4 → ℚ)
    (fa : ℚ × ℚ) : ℚ × ℚ :=
  (List.finRange 4).foldl (fun p c => cvApply env base (assign c) (cv c) p) fa

/-- The modulated frequency before CV: `baseFrequency * (i+1)` plus the
modulation-matrix loop `for j = 0..6: += modulationMatrix[j][i] * harmonicAmplitudes[j]`
(the additions are reordered into a `Finset.sum`, which is sound for exact
rational arithmetic). -/
def modFreq (base : ℚ) (mm : Fin 7 → Fin 7 → ℚ) (amps : Fin 7 → ℚ) (i : Fin 7) : ℚ :=
  base * (((i : ℕ) : ℚ) + 1) + ∑ j, mm j i * amps j

/-- The `switch (currentWaveform)` sample computation of `onTimer`, without
the leading amplitude factor. -/
def waveShape (env : Env) (w : WaveformType) (sampleIndex : ℕ) (freq : ℚ) : ℚ :=
  match w with
  | WaveformType.SINE => env.sinFn ((sampleIndex : ℚ) * freq / sampleRate)
  | WaveformType.SAW =>
      2 * ((sampleIndex % numSamples : ℕ) : ℚ) / (numSamples : ℚ) - 1
  | WaveformType.TRIANGLE =>
      2 * |2 * ((sampleIndex % numSamples : ℕ) : ℚ) / (numSamples : ℚ) - 1| - 1
  | WaveformType.PULSE =>
      if sampleIndex % numSamples < numSamples / 2 then 1 else -1

/-- The body of `onTimer`'s harmonic loop for one harmonic `i`: compute the
modulated frequency from the current amplitudes, run the CV switch (which may
scale `harmonicAmplitudes[i]` in place), synthesize the sample from the
post-CV amplitude, and accumulate into left/right/stereo/wave. -/
def harmonicStep (env : Env) (st : Store) (cv : Fin 4 → ℚ) (acc : TickAcc) (i : Fin 7) :
    TickAcc :=
  let f0 := modFreq st.baseFrequency st.modulationMatrix acc.amps i
  let fa := applyCV env st.cvAssignments st.baseFrequency cv (f0, acc.amps i)
  let s := fa.2 * waveShape env st.currentWaveform st.sampleIndex fa.1
  let pan := st.harmonicPanning i
  { amps := Function.update acc.amps i fa.2
    left := acc.left + s * (1 - pan)
    right := acc.right + s * pan
    stereo := acc.stereo + s
    wave := Function.update acc.wave i s }

/-- The timer ISR `onTimer`: run the harmonic loop over i = 0..6 and commit
the (possibly CV-scaled) amplitudes and the advanced sample index back to the
store, returning the produced frame.  The CV readings `cv` are the four
normalized `analogRead` values of this tick. -/
def onTimer (env : Env) (st : Store) (cv : Fin 4 → ℚ) : Store × SampleFrame :=
  let acc0 : TickAcc :=
    { amps := st.harmonicAmplitudes, left := 0, right := 0, stereo := 0, wave := fun _ => 0 }
  let acc := (List.finRange 7).foldl (harmonicStep env st cv) acc0
  ({ st with harmonicAmplitudes := acc.amps
             sampleIndex := (st.sampleIndex + 1) % numSamples },
   { left := acc.left, right := acc.right, stereo := acc.stereo, perHarmonic := acc.wave })

/-- C `(int)` cast of a float value: truncation toward zero. -/
def cppTrunc (q : ℚ) : ℤ :=
  if 0 ≤ q then ⌊q⌋ else ⌈q⌉

/-- The integer values written to the DAC channels by one tick. -/
structure DACOut where
  left : ℤ
  right : ℤ
  stereo : ℤ
  wave : Fin 7 → ℤ

/-- `outputToDACs` from src/dac.cpp (the same conversions appear inline in
osmose.cpp's `onTimer`): `(int)((x + 1.0) * 127.5)` for left/right and
`(int)((x + 1.0) * 2047.5)` for stereo and the per-harmonic outputs.  No
clamping is performed anywhere in this path. -/
def outputToDACs (l r s2 : ℚ) (wv : Fin 7 → ℚ) : DACOut :=
  { left := cppTrunc ((l + 1) * (255 / 2))
    right := cppTrunc ((r + 1) * (255 / 2))
    stereo := cppTrunc ((s2 + 1) * (4095 / 2))
    wave := fun i => cppTrunc ((wv i + 1) * (4095 / 2)) }

/-- `majorScale` of `quantizeHarmonics`: {1.0, 1.122, 1.26, 1.335, 1.5, 1.682, 1.888}. -/
def majorScale : Fin 7 → ℚ := fun j =>
  match j with
  | ⟨0, _⟩ => 1
  | ⟨1, _⟩ => 1.122
  | ⟨2, _⟩ => 1.26
  | ⟨3, _⟩ => 1.335
  | ⟨4, _⟩ => 1.5
  | ⟨5, _⟩ => 1.682
  | ⟨6, _⟩ => 1.888

/-- `minorScale` of `quantizeHarmonics`: {1.0, 1.122, 1.189, 1.335, 1.5, 1.587, 1.782}. -/
def minorScale : Fin 7 → ℚ := fun j =>
  match j with
  | ⟨0, _⟩ => 1
  | ⟨1, _⟩ => 1.122
  | ⟨2, _⟩ => 1.189
  | ⟨3, _⟩ => 1.335
  | ⟨4, _⟩ => 1.5
  | ⟨5, _⟩ => 1.587
  | ⟨6, _⟩ => 1.782

/-- `naturalHarmonicScale` of `quantizeHarmonics`:
{1.0, 1.125, 1.25, 1.375, 1.5, 1.625, 1.75}. -/
def naturalHarmonicScale : Fin 7 → ℚ := fun j =>
  match j with
  | ⟨0, _⟩ => 1
  | ⟨1, _⟩ => 1.125
  | ⟨2, _⟩ => 1.25
  | ⟨3, _⟩ => 1.375
  | ⟨4, _⟩ => 1.5
  | ⟨5, _⟩ => 1.625
  | ⟨6, _⟩ => 1.75

/-- `pentatonicScale` of `quantizeHarmonics`:
{1.0, 1.125, 1.25, 1.5, 1.75, 2.0, 2.25}. -/
def pentatonicScale : Fin 7 → ℚ := fun j =>
  match j with
  | ⟨0, _⟩ => 1
  | ⟨1, _⟩ => 1.125
  | ⟨2, _⟩ => 1.25
  | ⟨3, _⟩ => 1.5
  | ⟨4, _⟩ => 1.75
  | ⟨5, _⟩ => 2.0
  | ⟨6, _⟩ => 2.25

/-- The `switch (currentMenu)` of `quantizeHarmonics` selecting `selectedScale`.
The source's case labels are `SCALE_MENU` (value 0) and the undeclared names
`MINOR`, `NATURAL_HARMONIC`, `PENTATONIC`, modelled here by the scale indices
1, 2, 3 of the `scaleNames` table they name.  Any `currentMenu` value not
covered by the four cases leaves `selectedScale` unassigned (an uninitialized
pointer in the source), modelled as `none`. -/
def selectScale (currentMenu : ℕ) : Option (Fin 7 → ℚ) :=
  match currentMenu with
  | 0 => some majorScale
  | 1 => some minorScale
  | 2 => some naturalHarmonicScale
  | 3 => some pentatonicScale
  | _ => none

/-- `quantizeHarmonics`: overwrite all seven harmonic amplitudes with the
selected scale's coefficients; `none` when the switch leaves the scale
pointer unassigned. -/
def quantizeHarmonics (currentMenu : ℕ) (st : Store) : Option Store :=
  (selectScale currentMenu).map fun s => { st with harmonicAmplitudes := s }

/-- The menu-index update of `loop()`:
`menuIndex = (menuIndex + delta) % 7; if (menuIndex < 0) menuIndex += 7;`
with C truncated `%` (`Int.tmod`). -/
def loopMenuAdvance (menuIndex delta : ℤ) : ℤ :=
  let m := Int.tmod (menuIndex + delta) 7
  if m < 0 then m + 7 else m

/-- The encoder amplitude nudge of `loop()` (non-menu branch):
`harmonicAmplitudes[harmonicIndex] += (newPos - lastPos) * 0.1` followed by
`constrain(..., 0.0, 1.0)`. -/
def encoderNudgeAmp (st : Store) (h : Fin 7) (steps : ℤ) : Store :=
  let a := constrain (st.harmonicAmplitudes h + (steps : ℚ) * (1 / 10)) 0 1
  { st with harmonicAmplitudes := Function.update st.harmonicAmplitudes h a }

/-- The AMPLITUDE_MENU button action of `loop()`:
`harmonicAmplitudes[menuIndex] = constrain(harmonicAmplitudes[menuIndex] + 0.1, 0.0, 1.0)`. -/
def menuAmplitudeNudge (st : Store) (m : Fin 7) : Store :=
  let a := constrain (st.harmonicAmplitudes m + 1 / 10) 0 1
  { st with harmonicAmplitudes := Function.update st.harmonicAmplitudes m a }

/-- The PANNING_MENU button action of `loop()`:
`harmonicPanning[menuIndex] += 0.1` then `constrain(..., 0.0, 1.0)`. -/
def menuPanNudge (st : Store) (m : Fin 7) : Store :=
  let p := constrain (st.harmonicPanning m + 1 / 10) 0 1
  { st with harmonicPanning := Function.update st.harmonicPanning m p }

/-- The amplitude array observable by the timer ISR when it preempts
`quantizeHarmonics`' write loop after `k` completed iterations.  `loop()`
never enters the `timerMux` critical section, so the ISR can fire between
any two of the seven amplitude stores. -/
def midScaleAmps (scale pre : Fin 7 → ℚ) (k : ℕ) : Fin 7 → ℚ :=
  fun i => if (i : ℕ) < k then scale i else pre i

/-- The startup defaults of the Parameter Store (global initializers in
osmose.cpp): harmonic 0 at amplitude 1.0, the rest at 0.0, all pans 0.5,
base frequency 440, zero modulation matrix, all CV channels NONE, sine
waveform, sample index 0. -/
def defaultStore : Store where
  harmonicAmplitudes := fun j => if j = 0 then 1 else 0
  harmonicPanning := fun _ => 1 / 2
  baseFrequency := 440
  modulationMatrix := fun _ _ => 0
  cvAssignments := fun _ => CVMode.NONE
  currentWaveform := WaveformType.SINE
  sampleIndex := 0

/-- A concrete computable environment used by witnesses (the theorems hold
for every `Env`). -/
def zeroEnv : Env where
  sinFn := fun _ => 0
  pow2 := fun _ => 1

/-- All-zero CV readings, used by witnesses. -/
def zeroCV : Fin 4 → ℚ := fun _ => 0

/-- The amplitude array a tick observes when the timer ISR preempts
`quantizeHarmonics` (applying the major scale to the default store) after
exactly 4 of its 7 amplitude writes. -/
def tornAmps : Fin 7 → ℚ := midScaleAmps majorScale defaultStore.harmonicAmplitudes 4

/-- The store as the preempting tick sees it in the torn-scale scenario
(pulse waveform selected so the observed amplitudes appear verbatim in the
frame). -/
def tornStore : Store :=
  { defaultStore with harmonicAmplitudes := tornAmps
                      currentWaveform := WaveformType.PULSE }

/-- A store with every harmonic at full amplitude, panned hard left, pulse
waveform: the loudest configuration reachable by clamped mutations alone. -/
def loudStore : Store :=
  { defaultStore with harmonicAmplitudes := fun _ => 1
                      harmonicPanning := fun _ => 0
                      currentWaveform := WaveformType.PULSE }

/-- The default store with the pulse waveform selected, used by witnesses. -/
def pulseStore : Store :=
  { defaultStore with currentWaveform := WaveformType.PULSE }

/-- The multiplicative factor one CV channel contributes to a harmonic's
amplitude during a tick: the channel's reading when it is assigned
`AMPLITUDE`, and `1` (no effect) otherwise. -/
def ampFactorOf (m : CVMode) (v : ℚ) : ℚ :=
  match m with
  | CVMode.AMPLITUDE => v
  | _ => 1

/-- The total factor by which one tick scales every harmonic amplitude:
the product of the readings of all `AMPLITUDE`-assigned channels. -/
def ampCVFactor (assign : Fin 4 → CVMode) (cv : Fin 4 → ℚ) : ℚ :=
  ((List.finRange 4).map fun c => ampFactorOf (assign c) (cv c)).prod

/-- Modelled from the spec (the claim's wording for C4): the effect of one
CV channel on the instantaneous frequency — LinearFM adds
`cv.value * baseFrequency`, ExponentialFM multiplies by `2^(cv.value)`,
PitchPerOctave multiplies by `2^(cv.value - 1)`, and None (as well as
Amplitude, whose effect is on amplitude) leaves the frequency unchanged. -/
def specCVFreq (env : Env) (base : ℚ) (m : CVMode) (v f : ℚ) : ℚ :=
  match m with
  | CVMode.LIN_FM => f + v * base
  | CVMode.EXP_FM => f * env.pow2 v
  | CVMode.PITCH_1V_OCT => f * env.pow2 (v - 1)
  | _ => f

/-- Modelled from the spec (the claim's wording for C4): the instantaneous
frequency of harmonic `i` — `baseFrequency*(i+1)`, plus for each `j` the
additive term `modulationMatrix[j][i]*amplitude[j]`, then each assigned CV
channel's effect applied in channel order 0..3. -/
def specInstFreq (env : Env) (assign : Fin 4 → CVMode) (base : ℚ) (cv : Fin 4 → ℚ)
    (mm : Fin 7 → Fin 7 → ℚ) (amps : Fin 7 → ℚ) (i : Fin 7) : ℚ :=
  (List.finRange 4).foldl (fun f c => specCVFreq env base (assign c) (cv c) f)
    (base * (((i : ℕ) : ℚ) + 1) + ∑ j, mm j i * amps j)

/-- The amplitude array part-way through a tick: the first `n` harmonics have
already had the CV amplitude factor applied, the rest have not. -/
def midAmps (amps : Fin 7 → ℚ) (F : ℚ) (n : ℕ) : Fin 7 → ℚ :=
  fun j => if (j : ℕ) < n then amps j * F else amps j

/-- The frequency `onTimer` computes for harmonic `i` from an amplitude
array `amps`: the modulated frequency fed through the CV switch chain. -/
def harmonicFreq (env : Env) (st : Store) (cv : Fin 4 → ℚ) (amps : Fin 7 → ℚ)
    (i : Fin 7) : ℚ :=
  (applyCV env st.cvAssignments st.baseFrequency cv
    (modFreq st.baseFrequency st.modulationMatrix amps i, amps i)).1

/-- The sample `onTimer` synthesizes for harmonic `i` in one tick: the
CV-scaled amplitude times the waveform shape at the frequency computed from
the mid-tick amplitude array (harmonics before `i` already scaled). -/
def tickSample (env : Env) (st : Store) (cv : Fin 4 → ℚ) (i : Fin 7) : ℚ :=
  st.harmonicAmplitudes i * ampCVFactor st.cvAssignments cv *
    waveShape env st.currentWaveform st.sampleIndex
      (harmonicFreq env st cv
        (midAmps st.harmonicAmplitudes (ampCVFactor st.cvAssignments cv) (i : ℕ)) i)

/-- The value of `onTimer`'s loop accumulator after the first `n` harmonics
have been processed. -/
def tickAccAt (env : Env) (st : Store) (cv : Fin 4 → ℚ) (n : ℕ) : TickAcc where
  amps := midAmps st.harmonicAmplitudes (ampCVFactor st.cvAssignments cv) n
  left := ∑ i ∈ Finset.univ.filter (fun i : Fin 7 => (i : ℕ) < n),
    tickSample env st cv i * (1 - st.harmonicPanning i)
  right := ∑ i ∈ Finset.univ.filter (fun i : Fin 7 => (i : ℕ) < n),
    tickSample env st cv i * st.harmonicPanning i
  stereo := ∑ i ∈ Finset.univ.filter (fun i : Fin 7 => (i : ℕ) < n),
    tickSample env st cv i
  wave := fun j => if (j : ℕ) < n then tickSample env st cv j else 0

/-- `n` successive timer ticks with the same CV readings, keeping only the
store (the DAC outputs are discarded between ticks). -/
def tickIter (env : Env) (cv : Fin 4 → ℚ) : ℕ → Store → Store
  | 0, st => st
  | n + 1, st => tickIter env cv n (onTimer env st cv).1

/-- The fixed phase table a non-sine waveform reads, as a function of the
residue `sampleIndex % numSamples` only (value for `SINE` is irrelevant and
set to 0). -/
def shapeTable (w : WaveformType) (r : ℕ) : ℚ :=
  match w with
  | WaveformType.SAW => 2 * (r : ℚ) / (numSamples : ℚ) - 1
  | WaveformType.TRIANGLE => 2 * |2 * (r : ℚ) / (numSamples : ℚ) - 1| - 1
  | WaveformType.PULSE => if r < numSamples / 2 then 1 else -1
  | WaveformType.SINE => 0

/-- One arm of the CV switch splits into its frequency effect and its
amplitude effect. -/
theorem cvApply_eq (env : Env) (base : ℚ) (m : CVMode) (v f a : ℚ) :
    cvApply env base m v (f, a) = (specCVFreq env base m v f, a * ampFactorOf m v) := by
  cases m <;> simp [cvApply, specCVFreq, ampFactorOf]

/-- The CV fold acts componentwise: the frequency follows the spec's
per-channel effects, the amplitude is multiplied by the channels'
amplitude factors. -/
theorem cvFold_eq (env : Env) (assign : Fin 4 → CVMode) (base : ℚ) (cv : Fin 4 → ℚ)
    (l : List (Fin 4)) (f a : ℚ) :
    l.foldl (fun p c => cvApply env base (assign c) (cv c) p) (f, a)
      = (l.foldl (fun g c => specCVFreq env base (assign c) (cv c) g) f,
         a * (l.map fun c => ampFactorOf (assign c) (cv c)).prod) := by
  induction l generalizing f a with
  | nil => simp
  | cons c l ih =>
    simp only [List.foldl_cons, List.map_cons, List.prod_cons, cvApply_eq]
    rw [ih, mul_assoc]

/-- The amplitude component of the CV chain. -/
theorem applyCV_snd (env : Env) (assign : Fin 4 → CVMode) (base : ℚ) (cv : Fin 4 → ℚ)
    (fa : ℚ × ℚ) :
    (applyCV env assign base cv fa).2 = fa.2 * ampCVFactor assign cv := by
  obtain ⟨f, a⟩ := fa
  rw [applyCV, cvFold_eq]
  rfl

/-- The frequency component of the CV chain. -/
theorem applyCV_fst (env : Env) (assign : Fin 4 → CVMode) (base : ℚ) (cv : Fin 4 → ℚ)
    (fa : ℚ × ℚ) :
    (applyCV env assign base cv fa).1
      = (List.finRange 4).foldl (fun g c => specCVFreq env base (assign c) (cv c) g) fa.1 := by
  obtain ⟨f, a⟩ := fa
  rw [applyCV, cvFold_eq]

/-- A channel not assigned AMPLITUDE contributes factor 1. -/
theorem ampFactorOf_ne (m : CVMode) (v : ℚ) (h : m ≠ CVMode.AMPLITUDE) :
    ampFactorOf m v = 1 := by
  cases m <;> simp_all [ampFactorOf]

/-- With no AMPLITUDE assignment the tick's amplitude factor is 1. -/
theorem ampCVFactor_eq_one (assign : Fin 4 → CVMode) (cv : Fin 4 → ℚ)
    (h : ∀ c, assign c ≠ CVMode.AMPLITUDE) : ampCVFactor assign cv = 1 := by
  refine List.prod_eq_one ?_
  intro x hx
  simp only [List.mem_map] at hx
  obtain ⟨c, -, rfl⟩ := hx
  exact ampFactorOf_ne _ _ (h c)

/-- The amplitude factor only reads the CV values of AMPLITUDE channels. -/
theorem ampCVFactor_congr (assign : Fin 4 → CVMode) (cv cv2 : Fin 4 → ℚ)
    (h : ∀ c, assign c = CVMode.AMPLITUDE → cv c = cv2 c) :
    ampCVFactor assign cv = ampCVFactor assign cv2 := by
  unfold ampCVFactor
  congr 1
  refine List.map_congr_left ?_
  intro c _
  by_cases hc : assign c = CVMode.AMPLITUDE
  · rw [hc]; simp [ampFactorOf, h c hc]
  · rw [ampFactorOf_ne _ _ hc, ampFactorOf_ne _ _ hc]

/-- The amplitude factor stays in [0,1] when the CV readings do. -/
theorem ampCVFactor_mem (assign : Fin 4 → CVMode) (cv : Fin 4 → ℚ)
    (h : ∀ c, 0 ≤ cv c ∧ cv c ≤ 1) :
    0 ≤ ampCVFactor assign cv ∧ ampCVFactor assign cv ≤ 1 := by
  have key : ∀ l : List (Fin 4),
      0 ≤ (l.map fun c => ampFactorOf (assign c) (cv c)).prod ∧
        (l.map fun c => ampFactorOf (assign c) (cv c)).prod ≤ 1 := by
    intro l
    induction l with
    | nil => simp
    | cons c l ih =>
      have hc : 0 ≤ ampFactorOf (assign c) (cv c) ∧ ampFactorOf (assign c) (cv c) ≤ 1 := by
        by_cases hm : assign c = CVMode.AMPLITUDE
        · rw [hm]; simpa [ampFactorOf] using h c
        · rw [ampFactorOf_ne _ _ hm]; norm_num
      simp only [List.map_cons, List.prod_cons]
      exact ⟨mul_nonneg hc.1 ih.1, mul_le_one₀ hc.2 ih.1 ih.2⟩
  exact key (List.finRange 4)

/-- With every channel assigned NONE the CV chain is the identity. -/
theorem applyCV_none (env : Env) (assign : Fin 4 → CVMode) (base : ℚ) (cv : Fin 4 → ℚ)
    (fa : ℚ × ℚ) (h : ∀ c, assign c = CVMode.NONE) :
    applyCV env assign base cv fa = fa := by
  unfold applyCV
  have key : ∀ l : List (Fin 4),
      l.foldl (fun p c => cvApply env base (assign c) (cv c) p) fa = fa := by
    intro l
    induction l with
    | nil => rfl
    | cons c l ih =>
      simp only [List.foldl_cons, h c, cvApply]
      exact ih
  exact key (List.finRange 4)

theorem tickAccAt_amps (env : Env) (st : Store) (cv : Fin 4 → ℚ) (n : ℕ) :
    (tickAccAt env st cv n).amps
      = midAmps st.harmonicAmplitudes (ampCVFactor st.cvAssignments cv) n := rfl

theorem tickAccAt_left (env : Env) (st : Store) (cv : Fin 4 → ℚ) (n : ℕ) :
    (tickAccAt env st cv n).left
      = ∑ i ∈ Finset.univ.filter (fun i : Fin 7 => (i : ℕ) < n),
          tickSample env st cv i * (1 - st.harmonicPanning i) := rfl

theorem tickAccAt_right (env : Env) (st : Store) (cv : Fin 4 → ℚ) (n : ℕ) :
    (tickAccAt env st cv n).right
      = ∑ i ∈ Finset.univ.filter (fun i : Fin 7 => (i : ℕ) < n),
          tickSample env st cv i * st.harmonicPanning i := rfl

theorem tickAccAt_stereo (env : Env) (st : Store) (cv : Fin 4 → ℚ) (n : ℕ) :
    (tickAccAt env st cv n).stereo
      = ∑ i ∈ Finset.univ.filter (fun i : Fin 7 => (i : ℕ) < n),
          tickSample env st cv i := rfl

theorem tickAccAt_wave (env : Env) (st : Store) (cv : Fin 4 → ℚ) (n : ℕ) :
    (tickAccAt env st cv n).wave
      = fun (j : Fin 7) => if (j : ℕ) < n then tickSample env st cv j else 0 := rfl

/-- Processing harmonic `n` advances the loop accumulator from its state
after `n` harmonics to its state after `n+1` harmonics. -/
theorem harmonicStep_accAt (env : Env) (st : Store) (cv : Fin 4 → ℚ) (n : ℕ) (hn : n < 7) :
    harmonicStep env st cv (tickAccAt env st cv n) ⟨n, hn⟩ = tickAccAt env st cv (n + 1) := by
  have hAn : midAmps st.harmonicAmplitudes (ampCVFactor st.cvAssignments cv) n ⟨n, hn⟩
      = st.harmonicAmplitudes ⟨n, hn⟩ := by
    simp [midAmps]
  have hpair : applyCV env st.cvAssignments st.baseFrequency cv
        (modFreq st.baseFrequency st.modulationMatrix
          (midAmps st.harmonicAmplitudes (ampCVFactor st.cvAssignments cv) n) ⟨n, hn⟩,
         midAmps st.harmonicAmplitudes (ampCVFactor st.cvAssignments cv) n ⟨n, hn⟩)
      = (harmonicFreq env st cv
           (midAmps st.harmonicAmplitudes (ampCVFactor st.cvAssignments cv) n) ⟨n, hn⟩,
         st.harmonicAmplitudes ⟨n, hn⟩ * ampCVFactor st.cvAssignments cv) := by
    refine Prod.ext ?_ ?_
    · rfl
    · rw [applyCV_snd]
      simp [hAn]
  have hsamp : st.harmonicAmplitudes ⟨n, hn⟩ * ampCVFactor st.cvAssignments cv *
        waveShape env st.currentWaveform st.sampleIndex
          (harmonicFreq env st cv
            (midAmps st.harmonicAmplitudes (ampCVFactor st.cvAssignments cv) n) ⟨n, hn⟩)
      = tickSample env st cv ⟨n, hn⟩ := rfl
  have hvalne : ∀ j : Fin 7, j ≠ ⟨n, hn⟩ → (j : ℕ) ≠ n := by
    intro j hj h
    exact hj (Fin.ext h)
  have hins : Finset.univ.filter (fun i : Fin 7 => (i : ℕ) < n + 1)
      = insert (⟨n, hn⟩ : Fin 7) (Finset.univ.filter (fun i : Fin 7 => (i : ℕ) < n)) := by
    ext j
    simp only [Finset.mem_insert, Finset.mem_filter, Finset.mem_univ, true_and]
    constructor
    · intro hj
      rcases Nat.lt_succ_iff_lt_or_eq.mp hj with h | h
      · exact Or.inr h
      · exact Or.inl (Fin.ext h)
    · rintro (rfl | hj)
      · exact Nat.lt_succ_self n
      · exact Nat.lt_succ_of_lt hj
  have hnm : (⟨n, hn⟩ : Fin 7) ∉ Finset.univ.filter (fun i : Fin 7 => (i : ℕ) < n) := by
    simp
  refine TickAcc.ext ?_ ?_ ?_ ?_ ?_
  · simp only [harmonicStep, tickAccAt_amps, hpair]
    funext j
    by_cases hj : j = ⟨n, hn⟩
    · subst hj
      rw [Function.update_same]
      simp [midAmps]
    · rw [Function.update_noteq hj]
      have hv := hvalne j hj
      simp only [midAmps]
      split_ifs with h1 h2
      · rfl
      · exact absurd (Nat.lt_succ_of_lt h1) h2
      · exact absurd (by omega : (j : ℕ) < n) h1
      · rfl
  · simp only [harmonicStep, tickAccAt_amps, tickAccAt_left, hpair, hsamp]
    rw [hins, Finset.sum_insert hnm, add_comm]
  · simp only [harmonicStep, tickAccAt_amps, tickAccAt_right, hpair, hsamp]
    rw [hins, Finset.sum_insert hnm, add_comm]
  · simp only [harmonicStep, tickAccAt_amps, tickAccAt_stereo, hpair, hsamp]
    rw [hins, Finset.sum_insert hnm, add_comm]
  · simp only [harmonicStep, tickAccAt_amps, tickAccAt_wave, hpair, hsamp]
    funext j
    by_cases hj : j = ⟨n, hn⟩
    · subst hj
      rw [Function.update_same]
      simp
    · rw [Function.update_noteq hj]
      have hv := hvalne j hj
      split_ifs with h1 h2
      · rfl
      · exact absurd (Nat.lt_succ_of_lt h1) h2
      · exact absurd (by omega : (j : ℕ) < n) h1
      · rfl

/-- Folding the remaining harmonics from state `n` reaches the final state. -/
theorem foldl_accAt (env : Env) (st : Store) (cv : Fin 4 → ℚ) :
    ∀ (k n : ℕ), n + k = 7 →
      ((List.finRange 7).drop n).foldl (harmonicStep env st cv) (tickAccAt env st cv n)
        = tickAccAt env st cv 7 := by
  intro k
  induction k with
  | zero =>
    intro n hn
    have h7 : n = 7 := by omega
    subst h7
    rw [show (List.finRange 7).drop 7 = [] from by simp]
    rfl
  | succ k ih =>
    intro n hn
    have hn7 : n < 7 := by omega
    have hdrop : (List.finRange 7).drop n = ⟨n, hn7⟩ :: (List.finRange 7).drop (n + 1) := by
      rw [List.drop_eq_getElem_cons (by simpa using hn7)]
      simp
    rw [hdrop, List.foldl_cons, harmonicStep_accAt env st cv n hn7]
    exact ih (n + 1) (by omega)

/-- Master characterization of one generator tick: the committed store scales
every amplitude by the tick's CV amplitude factor and advances the sample
index by 1 mod `numSamples`; the frame is the per-harmonic samples
`tickSample` and their pan-weighted sums. -/
theorem onTimer_eq (env : Env) (st : Store) (cv : Fin 4 → ℚ) :
    onTimer env st cv =
      ({ st with
          harmonicAmplitudes :=
            fun j => st.harmonicAmplitudes j * ampCVFactor st.cvAssignments cv
          sampleIndex := (st.sampleIndex + 1) % numSamples },
       { left := ∑ i, tickSample env st cv i * (1 - st.harmonicPanning i)
         right := ∑ i, tickSample env st cv i * st.harmonicPanning i
         stereo := ∑ i, tickSample env st cv i
         perHarmonic := fun i => tickSample env st cv i }) := by
  have h0 : ({ amps := st.harmonicAmplitudes, left := 0, right := 0, stereo := 0, wave := fun _ => 0 } : TickAcc) = tickAccAt env st cv 0 := by
    refine TickAcc.ext ?_ ?_ ?_ ?_ ?_
    · funext j
      simp [tickAccAt_amps, midAmps]
    · simp [tickAccAt_left]
    · simp [tickAccAt_right]
    · simp [tickAccAt_stereo]
    · funext j
      simp [tickAccAt_wave]
  have hfold : (List.finRange 7).foldl (harmonicStep env st cv) (tickAccAt env st cv 0)
      = tickAccAt env st cv 7 := by
    simpa using foldl_accAt env st cv 7 0 rfl
  have hfilter : Finset.univ.filter (fun i : Fin 7 => (i : ℕ) < 7) = Finset.univ := by
    ext j
    simp [j.isLt]
  simp only [onTimer, h0, hfold]
  refine Prod.ext ?_ ?_
  · refine Store.ext ?_ rfl rfl rfl rfl rfl rfl
    funext j
    simp [tickAccAt_amps, midAmps, j.isLt]
  · refine SampleFrame.ext ?_ ?_ ?_ ?_
    · rw [tickAccAt_left, hfilter]
    · rw [tickAccAt_right, hfilter]
    · rw [tickAccAt_stereo, hfilter]
    · funext j
      simp [tickAccAt_wave, j.isLt]

/-- A non-sine waveform sample is a fixed function of the residue
`sampleIndex % numSamples`, ignoring the frequency argument. -/
theorem waveShape_ne_sine (env : Env) (w : WaveformType) (idx : ℕ) (f : ℚ)
    (h : w ≠ WaveformType.SINE) :
    waveShape env w idx f = shapeTable w (idx % numSamples) := by
  cases w
  · exact absurd rfl h
  · rfl
  · rfl
  · rfl

/-- The code's frequency chain equals the spec-worded formula. -/
theorem harmonicFreq_spec (env : Env) (st : Store) (cv : Fin 4 → ℚ)
    (amps : Fin 7 → ℚ) (i : Fin 7) :
    harmonicFreq env st cv amps i
      = specInstFreq env st.cvAssignments st.baseFrequency cv st.modulationMatrix amps i := by
  rw [harmonicFreq, applyCV_fst]
  rfl

/-- Iterating ticks scales each amplitude by the CV amplitude factor once per
tick. -/
theorem tickIter_amps (env : Env) (cv : Fin 4 → ℚ) :
    ∀ (n : ℕ) (st : Store) (i : Fin 7),
      (tickIter env cv n st).harmonicAmplitudes i
        = st.harmonicAmplitudes i * ampCVFactor st.cvAssignments cv ^ n := by
  intro n
  induction n with
  | zero =>
    intro st i
    simp [tickIter]
  | succ n ih =>
    intro st i
    rw [show tickIter env cv (n + 1) st = tickIter env cv n (onTimer env st cv).1 from rfl,
      ih]
    rw [onTimer_eq]
    simp only []
    rw [pow_succ]
    ring

/-- `constrain x 0 1` always lands in [0,1]. -/
theorem constrain_mem (x : ℚ) : 0 ≤ constrain x 0 1 ∧ constrain x 0 1 ≤ 1 := by
  unfold constrain
  split_ifs with h1 h2
  · exact ⟨le_refl 0, by norm_num⟩
  · exact ⟨by norm_num, le_refl 1⟩
  · exact ⟨not_lt.mp h1, not_lt.mp h2⟩

/-- Claim C4: for every harmonic `i` the generator computes the instantaneous
frequency as `baseFrequency*(i+1)`, plus the additive modulation terms
`modulationMatrix[j][i]*amplitude[j]` over all `j` (sourced from harmonic
`j`'s current amplitude, diagonal included), and then applies each assigned
CV channel's effect in channel order 0..3 — LinearFM adds
`cv.value*baseFrequency`, ExponentialFM multiplies by `2^cv.value`,
PitchPerOctave multiplies by `2^(cv.value-1)`, None leaves the frequency
unchanged (`specInstFreq` is that spec formula); and the tick synthesizes
harmonic `i`'s sample at exactly that frequency, evaluated at the mid-tick
amplitude array. -/
theorem c4_instantaneous_frequency (env : Env) (st : Store) (cv : Fin 4 → ℚ)
    (amps : Fin 7 → ℚ) (i : Fin 7) :
    harmonicFreq env st cv amps i
      = specInstFreq env st.cvAssignments st.baseFrequency cv st.modulationMatrix amps i
    ∧ (onTimer env st cv).2.perHarmonic i
      = st.harmonicAmplitudes i * ampCVFactor st.cvAssignments cv *
          waveShape env st.currentWaveform st.sampleIndex
            (harmonicFreq env st cv
              (midAmps st.harmonicAmplitudes (ampCVFactor st.cvAssignments cv) (i : ℕ)) i) := by
  constructor
  · exact harmonicFreq_spec env st cv amps i
  · rw [onTimer_eq]
    rfl

/-- Claim C7: for every tick the mono (stereo-sum) output equals the sum of
the seven per-harmonic samples, the left output is the sum weighted by
`1 - pan[i]`, and the right output is the sum weighted by `pan[i]`, exactly
in the embedding's rational arithmetic. -/
theorem c7_mixing_law (env : Env) (st : Store) (cv : Fin 4 → ℚ) :
    (onTimer env st cv).2.stereo = ∑ i, (onTimer env st cv).2.perHarmonic i
    ∧ (onTimer env st cv).2.left
        = ∑ i, (onTimer env st cv).2.perHarmonic i * (1 - st.harmonicPanning i)
    ∧ (onTimer env st cv).2.right
        = ∑ i, (onTimer env st cv).2.perHarmonic i * st.harmonicPanning i := by
  rw [onTimer_eq]
  exact ⟨rfl, rfl, rfl⟩

/-- Claim C5: a tick multiplies every harmonic's stored amplitude in place by
the reading of each AMPLITUDE-assigned CV channel (their product is
`ampCVFactor`), the scaled amplitude is the one used for that harmonic's
synthesis, the change persists in the store after the tick, and over `n`
successive ticks the scaling compounds as the factor's `n`-th power. -/
theorem c5_amplitude_cv_persists_compounds (env : Env) (st : Store) (cv : Fin 4 → ℚ)
    (i : Fin 7) (n : ℕ) :
    (onTimer env st cv).1.harmonicAmplitudes i
      = st.harmonicAmplitudes i * ampCVFactor st.cvAssignments cv
    ∧ (tickIter env cv n st).harmonicAmplitudes i
      = st.harmonicAmplitudes i * ampCVFactor st.cvAssignments cv ^ n
    ∧ (onTimer env st cv).2.perHarmonic i
      = st.harmonicAmplitudes i * ampCVFactor st.cvAssignments cv *
          waveShape env st.currentWaveform st.sampleIndex
            (harmonicFreq env st cv
              (midAmps st.harmonicAmplitudes (ampCVFactor st.cvAssignments cv) (i : ℕ)) i) := by
  refine ⟨?_, tickIter_amps env cv n st i, ?_⟩
  · rw [onTimer_eq]
  · rw [onTimer_eq]
    rfl

/-- Claim C6: when all four CV channels are assigned None, the frame produced
by a tick is independent of the CV readings — from the same store and sample
index, any two readings yield the identical SampleFrame. -/
theorem c6_frame_independent_of_cv_when_none (env : Env) (st : Store)
    (cvA cvB : Fin 4 → ℚ) (h : ∀ c, st.cvAssignments c = CVMode.NONE) :
    (onTimer env st cvA).2 = (onTimer env st cvB).2 := by
  have hne : ∀ c, st.cvAssignments c ≠ CVMode.AMPLITUDE := by
    intro c
    rw [h c]
    intro hc
    exact CVMode.noConfusion hc
  have hF : ∀ cv : Fin 4 → ℚ, ampCVFactor st.cvAssignments cv = 1 := fun cv =>
    ampCVFactor_eq_one _ _ hne
  have hfreq : ∀ (cv : Fin 4 → ℚ) (amps : Fin 7 → ℚ) (i : Fin 7),
      harmonicFreq env st cv amps i
        = modFreq st.baseFrequency st.modulationMatrix amps i := by
    intro cv amps i
    rw [harmonicFreq, applyCV_none env _ _ _ _ h]
  have hts : ∀ i, tickSample env st cvA i = tickSample env st cvB i := by
    intro i
    rw [tickSample, tickSample, hF, hF, hfreq, hfreq]
  rw [onTimer_eq, onTimer_eq]
  simp only [hts]

/-- Witness for C6 at the default store (all channels None) and two
different CV readings. -/
theorem c6_frame_independent_of_cv_when_none_check :
    (∀ c, defaultStore.cvAssignments c = CVMode.NONE)
    ∧ (onTimer zeroEnv defaultStore zeroCV).2
        = (onTimer zeroEnv defaultStore (fun _ => 1)).2 :=
  ⟨fun _ => rfl,
   c6_frame_independent_of_cv_when_none zeroEnv defaultStore zeroCV (fun _ => 1)
     (fun _ => rfl)⟩

/-- Claim C10: a tick in which no CV channel is assigned Amplitude leaves
every Parameter Store field unchanged — amplitudes, pans, modulation matrix,
base frequency, waveform, CV assignments — and only advances the sample
index by exactly 1 modulo 256. -/
theorem c10_tick_only_advances_sample_index (env : Env) (st : Store) (cv : Fin 4 → ℚ)
    (h : ∀ c, st.cvAssignments c ≠ CVMode.AMPLITUDE) :
    (onTimer env st cv).1 = { st with sampleIndex := (st.sampleIndex + 1) % numSamples } := by
  rw [onTimer_eq]
  refine Store.ext ?_ rfl rfl rfl rfl rfl rfl
  funext j
  simp [ampCVFactor_eq_one _ _ h]

/-- Witness for C10 at the default store (no Amplitude assignment). -/
theorem c10_tick_only_advances_sample_index_check :
    (∀ c, defaultStore.cvAssignments c ≠ CVMode.AMPLITUDE)
    ∧ (onTimer zeroEnv defaultStore zeroCV).1
        = { defaultStore with sampleIndex := (defaultStore.sampleIndex + 1) % numSamples } :=
  ⟨by decide,
   c10_tick_only_advances_sample_index zeroEnv defaultStore zeroCV (by decide)⟩

/-- Claim C8: for the Sawtooth, Triangle and Pulse waveforms the synthesized
sample of harmonic `i` is its (CV-scaled) amplitude times a fixed function of
`sampleIndex mod 256` (`shapeTable`); the frame does not depend on the base
frequency, the modulation matrix, or the readings of any CV channel other
than AMPLITUDE-assigned ones (the frequency-affecting CV effects) — only the
Sine kind uses the computed frequency. -/
theorem c8_nonsine_ignores_frequency (env : Env) (st : Store) (cv cv2 : Fin 4 → ℚ)
    (b : ℚ) (M : Fin 7 → Fin 7 → ℚ) (i : Fin 7)
    (hw : st.currentWaveform ≠ WaveformType.SINE) :
    (onTimer env st cv).2.perHarmonic i
      = st.harmonicAmplitudes i * ampCVFactor st.cvAssignments cv *
          shapeTable st.currentWaveform (st.sampleIndex % numSamples)
    ∧ (onTimer env { st with baseFrequency := b, modulationMatrix := M } cv).2
      = (onTimer env st cv).2
    ∧ ((∀ c, st.cvAssignments c = CVMode.AMPLITUDE → cv c = cv2 c) →
        (onTimer env st cv2).2 = (onTimer env st cv).2) := by
  have hshape : ∀ (st2 : Store) (cvx : Fin 4 → ℚ) (j : Fin 7),
      st2.currentWaveform = st.currentWaveform →
      tickSample env st2 cvx j
        = st2.harmonicAmplitudes j * ampCVFactor st2.cvAssignments cvx *
            shapeTable st.currentWaveform (st2.sampleIndex % numSamples) := by
    intro st2 cvx j hw2
    rw [tickSample, hw2, waveShape_ne_sine env _ _ _ hw]
  refine ⟨?_, ?_, ?_⟩
  · rw [onTimer_eq]
    exact hshape st cv i rfl
  · have hts : ∀ j, tickSample env { st with baseFrequency := b, modulationMatrix := M } cv j
        = tickSample env st cv j := by
      intro j
      rw [hshape { st with baseFrequency := b, modulationMatrix := M } cv j rfl,
        hshape st cv j rfl]
    rw [onTimer_eq, onTimer_eq]
    simp only [hts]
  · intro hcv
    have hF : ampCVFactor st.cvAssignments cv2 = ampCVFactor st.cvAssignments cv :=
      (ampCVFactor_congr st.cvAssignments cv cv2 hcv).symm
    have hts : ∀ j, tickSample env st cv2 j = tickSample env st cv j := by
      intro j
      rw [hshape st cv2 j rfl, hshape st cv j rfl, hF]
    rw [onTimer_eq, onTimer_eq]
    simp only [hts]

/-- Witness for C8 at the pulse-waveform store. -/
theorem c8_nonsine_ignores_frequency_check :
    pulseStore.currentWaveform ≠ WaveformType.SINE
    ∧ (onTimer zeroEnv pulseStore zeroCV).2.perHarmonic 0
        = pulseStore.harmonicAmplitudes 0 * ampCVFactor pulseStore.cvAssignments zeroCV *
            shapeTable pulseStore.currentWaveform (pulseStore.sampleIndex % numSamples) :=
  ⟨by decide,
   (c8_nonsine_ignores_frequency zeroEnv pulseStore zeroCV zeroCV 440 (fun _ _ => 0) 0
     (by decide)).1⟩

/-- Claim C1 evaluated at its failing interleaving: `loop()` never enters the
`timerMux` critical section, so the timer ISR can preempt
`quantizeHarmonics`' seven-iteration write loop; after 4 completed writes of
the major scale over the default amplitudes the observed array `tornAmps`
equals neither the prior state nor the scale (indices 0..3 are the scale's,
4..6 the prior state's), and the preempting tick synthesizes from exactly
this mixed array — its frame shows the new 1.122 at harmonic 1 next to the
old 0 at harmonic 4 (which would be 1.5 had the scale been fully applied). -/
theorem c1_torn_scale_observed :
    tornAmps ≠ defaultStore.harmonicAmplitudes
    ∧ tornAmps ≠ majorScale
    ∧ tornAmps 1 = majorScale 1
    ∧ tornAmps 4 = defaultStore.harmonicAmplitudes 4
    ∧ (onTimer zeroEnv tornStore zeroCV).2.perHarmonic 1 = 1.122
    ∧ (onTimer zeroEnv tornStore zeroCV).2.perHarmonic 4 = 0
    ∧ majorScale 4 = 1.5 := by
  have hF : ampCVFactor tornStore.cvAssignments zeroCV = 1 :=
    ampCVFactor_eq_one _ _ (by decide)
  have hpulse : ∀ f : ℚ,
      waveShape zeroEnv tornStore.currentWaveform tornStore.sampleIndex f = 1 := by
    intro f
    show waveShape zeroEnv WaveformType.PULSE 0 f = 1
    simp [waveShape, numSamples]
  refine ⟨?_, ?_, rfl, rfl, ?_, ?_, rfl⟩
  · intro h
    have h1 := congrFun h 1
    rw [show tornAmps 1 = 1.122 from rfl,
      show defaultStore.harmonicAmplitudes 1 = 0 from rfl] at h1
    norm_num at h1
  · intro h
    have h4 := congrFun h 4
    rw [show tornAmps 4 = 0 from rfl, show majorScale 4 = 1.5 from rfl] at h4
    norm_num at h4
  · rw [onTimer_eq]
    show tickSample zeroEnv tornStore zeroCV 1 = 1.122
    simp only [tickSample]
    rw [hF, hpulse, mul_one, mul_one]
    rfl
  · rw [onTimer_eq]
    show tickSample zeroEnv tornStore zeroCV 4 = 0
    simp only [tickSample]
    rw [hF, hpulse, mul_one, mul_one]
    rfl

/-- Claim C2's counterexample: applying the major scale (menu value 0)
overwrites harmonic 1's amplitude with the raw ratio 1.122, which is outside
[0,1] — scale application performs no clamping. -/
theorem c2_scale_overwrite_exceeds_unit :
    quantizeHarmonics 0 defaultStore
      = some { defaultStore with harmonicAmplitudes := majorScale }
    ∧ majorScale 1 = 1.122
    ∧ ¬ (majorScale 1 ≤ 1) := by
  refine ⟨rfl, rfl, ?_⟩
  rw [show majorScale 1 = 1.122 from rfl]
  norm_num

/-- Claim C2 as amended: the encoder amplitude nudge, menu amplitude nudge
and pan nudge store a value in [0,1] for every requested delta, and a
generator tick (CV Amplitude scaling included) keeps every amplitude in
[0,1] provided the amplitudes start there and the CV readings are in [0,1];
scale application (the counterexample) is the one amplitude mutation that
stores unclamped values. -/
theorem c2_clamped_mutations_in_unit (st : Store) (h : Fin 7) (steps : ℤ) (m : Fin 7)
    (env : Env) (cv : Fin 4 → ℚ) (i : Fin 7) :
    (0 ≤ (encoderNudgeAmp st h steps).harmonicAmplitudes h
      ∧ (encoderNudgeAmp st h steps).harmonicAmplitudes h ≤ 1)
    ∧ (0 ≤ (menuAmplitudeNudge st m).harmonicAmplitudes m
      ∧ (menuAmplitudeNudge st m).harmonicAmplitudes m ≤ 1)
    ∧ (0 ≤ (menuPanNudge st m).harmonicPanning m
      ∧ (menuPanNudge st m).harmonicPanning m ≤ 1)
    ∧ ((∀ j, 0 ≤ st.harmonicAmplitudes j ∧ st.harmonicAmplitudes j ≤ 1) →
        (∀ c, 0 ≤ cv c ∧ cv c ≤ 1) →
        0 ≤ (onTimer env st cv).1.harmonicAmplitudes i
          ∧ (onTimer env st cv).1.harmonicAmplitudes i ≤ 1) := by
  refine ⟨?_, ?_, ?_, ?_⟩
  · simp only [encoderNudgeAmp, Function.update_same]
    exact constrain_mem _
  · simp only [menuAmplitudeNudge, Function.update_same]
    exact constrain_mem _
  · simp only [menuPanNudge, Function.update_same]
    exact constrain_mem _
  · intro hA hcv
    have hamp : (onTimer env st cv).1.harmonicAmplitudes i
        = st.harmonicAmplitudes i * ampCVFactor st.cvAssignments cv := by
      rw [onTimer_eq]
    have hF := ampCVFactor_mem st.cvAssignments cv hcv
    rw [hamp]
    exact ⟨mul_nonneg (hA i).1 hF.1, mul_le_one₀ (hA i).2 hF.1 hF.2⟩

/-- Witness for the amended C2 at the default store with zero CV readings. -/
theorem c2_clamped_mutations_in_unit_check :
    (∀ j, 0 ≤ defaultStore.harmonicAmplitudes j ∧ defaultStore.harmonicAmplitudes j ≤ 1)
    ∧ (∀ c, 0 ≤ zeroCV c ∧ zeroCV c ≤ 1)
    ∧ (0 ≤ (onTimer zeroEnv defaultStore zeroCV).1.harmonicAmplitudes 0
        ∧ (onTimer zeroEnv defaultStore zeroCV).1.harmonicAmplitudes 0 ≤ 1) := by
  have hA : ∀ j, 0 ≤ defaultStore.harmonicAmplitudes j
      ∧ defaultStore.harmonicAmplitudes j ≤ 1 := by
    intro j
    simp only [defaultStore]
    split_ifs <;> norm_num
  have hcv : ∀ c, 0 ≤ zeroCV c ∧ zeroCV c ≤ 1 := by
    intro c
    simp [zeroCV]
  exact ⟨hA, hcv,
    (c2_clamped_mutations_in_unit defaultStore 0 0 0 zeroEnv zeroCV 0).2.2.2 hA hcv⟩

/-- Claim C3 evaluated at its failing input: with all seven amplitudes at
1.0 (reachable by encoder nudges alone), all pans hard left and the pulse
waveform, the mixed left sample is 7; no clamping is applied and the 8-bit
left DAC channel is handed 1020, outside 0..255. -/
theorem c3_dac_value_out_of_range :
    (onTimer zeroEnv loudStore zeroCV).2.left = 7
    ∧ (outputToDACs (onTimer zeroEnv loudStore zeroCV).2.left
        (onTimer zeroEnv loudStore zeroCV).2.right
        (onTimer zeroEnv loudStore zeroCV).2.stereo
        (onTimer zeroEnv loudStore zeroCV).2.perHarmonic).left = 1020
    ∧ 255 < (outputToDACs (onTimer zeroEnv loudStore zeroCV).2.left
        (onTimer zeroEnv loudStore zeroCV).2.right
        (onTimer zeroEnv loudStore zeroCV).2.stereo
        (onTimer zeroEnv loudStore zeroCV).2.perHarmonic).left := by
  have hF : ampCVFactor loudStore.cvAssignments zeroCV = 1 :=
    ampCVFactor_eq_one _ _ (by decide)
  have hpulse : ∀ f : ℚ,
      waveShape zeroEnv loudStore.currentWaveform loudStore.sampleIndex f = 1 := by
    intro f
    show waveShape zeroEnv WaveformType.PULSE 0 f = 1
    simp [waveShape, numSamples]
  have hts : ∀ i, tickSample zeroEnv loudStore zeroCV i = 1 := by
    intro i
    simp only [tickSample]
    rw [hF, hpulse, mul_one, mul_one]
    rfl
  have hL : (onTimer zeroEnv loudStore zeroCV).2.left = 7 := by
    rw [onTimer_eq]
    show (∑ i, tickSample zeroEnv loudStore zeroCV i * (1 - loudStore.harmonicPanning i)) = 7
    have hpan : ∀ i : Fin 7, loudStore.harmonicPanning i = 0 := fun i => rfl
    simp only [hts, hpan]
    rw [Fin.sum_univ_seven]
    norm_num
  have hdac : (outputToDACs (onTimer zeroEnv loudStore zeroCV).2.left
      (onTimer zeroEnv loudStore zeroCV).2.right
      (onTimer zeroEnv loudStore zeroCV).2.stereo
      (onTimer zeroEnv loudStore zeroCV).2.perHarmonic).left = 1020 := by
    simp only [outputToDACs]
    rw [hL]
    norm_num [cppTrunc]
  refine ⟨hL, hdac, ?_⟩
  rw [hdac]
  norm_num

/-- Claim C9's counterexample: in the scale-selection branch of `loop()` the
menu index wraps modulo 7, so menu value 4 is reachable (e.g. from 0 with an
encoder delta of 4); `quantizeHarmonics` then hits no case of its scale
switch and copies the amplitudes from the unassigned scale pointer
(modelled as `none`). -/
theorem c9_unassigned_scale_branch_reached :
    loopMenuAdvance 0 4 = 4
    ∧ selectScale 4 = none
    ∧ quantizeHarmonics 4 defaultStore = none := by
  refine ⟨?_, rfl, rfl⟩
  decide

/-- Claim C9 as amended: for the menu values 0..6 reachable at the call site
in `loop()`, the scale switch assigns a defined scale exactly for the four
scale indices 0..3; for 4, 5 and 6 the selected-scale pointer is left
unassigned. -/
theorem c9_scale_defined_iff_lt_four (m : ℕ) (hm : m < 7) :
    (selectScale m).isSome ↔ m < 4 := by
  interval_cases m <;> simp [selectScale]

/-- Witness for the amended C9 at the reachable failing menu value 4. -/
theorem c9_scale_defined_iff_lt_four_check :
    4 < 7 ∧ (((selectScale 4).isSome) ↔ 4 < 4) :=
  ⟨by norm_num, c9_scale_defined_iff_lt_four 4 (by norm_num)⟩

end Osmose
